import Mathlib

/-!
Verification development for the statistics audit jobs in
`core/domain/stats_jobs_one_off.py`.

Strings are embedded as `List Char` (named `Str` below); Python integers
are `Int`; Python dicts that travel between the map and the reduce phase
are embedded as tagged variants or association lists; a `ValueError`
raised by `str.index` is an explicit `Except` error.
-/

abbrev Str := List Char

/-- Python slice `s[:i]` where `i` may be negative (counts from the end,
clamped at 0). -/
def pyTake (s : Str) (i : Int) : Str :=
  if i < 0 then s.take (s.length - (-i).toNat) else s.take i.toNat

/-- Python slice `s[i:]` where `i` may be negative (counts from the end,
clamped at 0). -/
def pyDrop (s : Str) (i : Int) : Str :=
  if i < 0 then s.drop (s.length - (-i).toNat) else s.drop i.toNat

/-- Scan of `AnswersAudit._get_consecutive_dot_count`'s loop body over the
tail of the string: `some k` when the first non-dot character sits at
offset `k` (the loop returns `i - idx`), `none` when the loop runs off the
end of the string (the function then returns 0). -/
def dotScan : Str → Option Nat
  | [] => none
  | c :: rest => if c = '.' then (dotScan rest).map (· + 1) else some 0

/-- `AnswersAudit._get_consecutive_dot_count(string, idx)`: iterate `i`
from `idx` to `len(string) - 1`; on the first `string[i] != '.'` return
`i - idx`; if the loop finishes (everything from `idx` on is a dot, or
`idx` is past the end) return 0. -/
def get_consecutive_dot_count (s : Str) (idx : Nat) : Nat :=
  (dotScan (s.drop idx)).getD 0

/-- One parsing step of `AnswersAudit.map`: `period_idx = item_id.index('.')`
(raising `ValueError`, hence `none`, when there is no dot) followed by
`period_idx += _get_consecutive_dot_count(item_id, period_idx) - 1`.
The result is an `Int` because the `- 1` can take it below zero. -/
def segmentBoundary (s : Str) : Option Int :=
  (s.findIdx? (fun c => c == '.')).map
    (fun p => ((p + get_consecutive_dot_count s p : Nat) : Int) - 1)

/-- One segment-extraction step of `AnswersAudit.map`: the segment is
`item_id[:period_idx]` and parsing resumes at `item_id[period_idx+1:]`. -/
def advanceSegment (s : Str) : Option (Str × Str) :=
  (segmentBoundary s).map (fun b => (pyTake s b, pyDrop s (b + 1)))

/-- The three chained segment extractions of `AnswersAudit.map`, yielding
`(exp_id, state_name, handler_name, rule_str)`; `none` when any of the
three `item_id.index('.')` calls raises `ValueError`. -/
def keyParse (item_id : Str) : Option (Str × Str × Str × Str) :=
  match advanceSegment item_id with
  | none => none
  | some (exp_id, r1) =>
    match advanceSegment r1 with
    | none => none
    | some (state_name, r2) =>
      match advanceSegment r2 with
      | none => none
      | some (handler_name, rule_str) =>
        some (exp_id, state_name, handler_name, rule_str)

/-- Categories of the rule-descriptor classification performed at the end
of `AnswersAudit.map` (lines 179-199). -/
inductive RuleCat
  | fuzzy
  | defaultRule
  | standard (rule_type : Str) (rule_args : Str)
  | malformed
  deriving DecidableEq, Repr

/-- The `if/elif` chain at the end of `AnswersAudit.map`:
`rule_str == 'FuzzyMatches'`, then `rule_str == 'Default'`, then
`'(' in rule_str and rule_str[-1] == ')'` (with
`index = rule_str.index('(')`, `rule_type = rule_str[0:index]`,
`rule_args = rule_str[index+1:-1]`), and otherwise the error branch. -/
def classifyRule (rule_str : Str) : RuleCat :=
  if rule_str = "FuzzyMatches".data then .fuzzy
  else if rule_str = "Default".data then .defaultRule
  else if ('(' ∈ rule_str) ∧ rule_str.getLast? = some ')' then
    match rule_str.findIdx? (fun c => c == '(') with
    | some index => .standard (rule_str.take index) ((pyTake rule_str (-1)).drop (index + 1))
    | none => .malformed   -- unreachable: the guard requires a paren
  else .malformed

/-- Spec-side rendering of the `Standard` rule type: the text before the
first open-paren. -/
def specRuleType (s : Str) : Str := s.takeWhile (fun c => !(c == '('))

/-- Spec-side rendering of the `Standard` rule arguments: the text strictly
between the first open-paren and the final close-paren. -/
def specRuleArgs (s : Str) : Str :=
  s.dropLast.drop ((s.takeWhile (fun c => !(c == '('))).length + 1)

/-- A `ValueError` raised by Python's `str.index`. -/
inductive PyErr
  | valueError
  deriving DecidableEq, Repr

/-- The `reduce_type` tags used by `AnswersAudit` (the class constants
`_HANDLER_NAME_COUNTER_KEY`, `_HANDLER_FUZZY_RULE_COUNTER_KEY`,
`_HANDLER_DEFAULT_RULE_COUNTER_KEY`, `_HANDLER_STANDARD_RULE_COUNTER_KEY`,
`_HANDLER_ERROR_RULE_COUNTER_KEY`). -/
inductive ReduceType
  | handlerCtr
  | fuzzyCtr
  | defaultCtr
  | standardCtr
  | errorCtr
  deriving DecidableEq, Repr

/-- The dict values emitted by `AnswersAudit.map`: one constructor per
yield site, holding exactly the keys the corresponding dict has besides
its `reduce_type`. -/
inductive AnswerValue
  | handlerVal (rule_spec_str : Str)
  | fuzzyVal
  | defaultVal
  | standardVal (rule_str : Str) (rule_args : Str)
  | errVal
  deriving DecidableEq, Repr

/-- The `reduce_type` entry of an emitted dict. -/
def reduceTypeOf : AnswerValue → ReduceType
  | .handlerVal _ => .handlerCtr
  | .fuzzyVal => .fuzzyCtr
  | .defaultVal => .defaultCtr
  | .standardVal _ _ => .standardCtr
  | .errVal => .errorCtr

/-- The `rule_spec_str` entry of an emitted dict, `none` when the dict
has no such key (a lookup then raises `KeyError`). -/
def ruleSpecStrOf : AnswerValue → Option Str
  | .handlerVal s => some s
  | _ => none

/-- `AnswersAudit.map(item)`: parse the composite id with the three
chained segment extractions, emit `(handler_name, {HandlerCounter,
rule_spec_str: item.id})`, then classify the remaining `rule_str` and emit
the corresponding second pair. A `ValueError` from `item_id.index('.')`
propagates before anything is emitted. -/
def answersAudit_map (item_id : Str) : Except PyErr (List (Str × AnswerValue)) :=
  match keyParse item_id with
  | none => .error .valueError
  | some (_, _, handler_name, rule_str) =>
    .ok [(handler_name, .handlerVal item_id),
      match classifyRule rule_str with
      | .fuzzy => (rule_str, .fuzzyVal)
      | .defaultRule => (rule_str, .defaultVal)
      | .standard rule_type rule_args => (rule_type, .standardVal rule_str rule_args)
      | .malformed => (rule_str, .errVal)]

/-- The diagnostic lines yielded by `AnswersAudit.reduce`: one constructor
per yield site, holding the values interpolated into the format string. -/
inductive ADiag
  | internalError1
  | handlerSummary (key : Str) (count : Nat) (rule_spec_strs : List Str)
  | fuzzySummary (count : Nat)
  | defaultSummary (count : Nat)
  | standardSummary (key : Str) (count : Nat)
  | errorRuleSummary (count : Nat) (key : Str)
  | internalError2
  deriving DecidableEq, Repr

/-- One iteration of the first loop of `AnswersAudit.reduce`:
`if reduce_type and reduce_type != value_dict['reduce_type']: yield
'Internal error 1'; elif not reduce_type: reduce_type = ...`. -/
def firstPassStep (acc : List ADiag × Option ReduceType) (v : AnswerValue) :
    List ADiag × Option ReduceType :=
  match acc.2 with
  | some rt => if rt ≠ reduceTypeOf v then (acc.1 ++ [ADiag.internalError1], acc.2) else acc
  | none => (acc.1, some (reduceTypeOf v))

/-- The first loop of `AnswersAudit.reduce`: establish `reduce_type` from
the first value and yield `'Internal error 1'` for every later value whose
`reduce_type` disagrees. -/
def firstPass (values : List AnswerValue) : List ADiag × Option ReduceType :=
  values.foldl firstPassStep ([], none)

/-- `AnswersAudit.reduce(key, values)`: the first pass above, then the
branch on the established `reduce_type`. The handler branch reads
`value_dict['rule_spec_str']` of every value; when a value lacks that key
the `KeyError` aborts the generator after the lines yielded so far, which
the Boolean component records. -/
def answersAudit_reduce (key : Str) (values : List AnswerValue) : List ADiag × Bool :=
  let reduce_count := values.length
  let p := firstPass values
  match p.2 with
  | some .handlerCtr =>
    match values.mapM ruleSpecStrOf with
    | some rule_spec_strs => (p.1 ++ [ADiag.handlerSummary key reduce_count rule_spec_strs], false)
    | none => (p.1, true)
  | some .fuzzyCtr => (p.1 ++ [ADiag.fuzzySummary reduce_count], false)
  | some .defaultCtr => (p.1 ++ [ADiag.defaultSummary reduce_count], false)
  | some .standardCtr => (p.1 ++ [ADiag.standardSummary key reduce_count], false)
  | some .errorCtr => (p.1 ++ [ADiag.errorRuleSummary reduce_count key], false)
  | none => (p.1 ++ [ADiag.internalError2], false)

/-- Decimal rendering of a Python integer (`'%d' % i`). -/
def pyIntStr (i : Int) : Str := (toString i).data

/-- Per-state counter dict stored in `state_hit_counts`; the reducer only
ever reads its `'first_entry_count'` entry. -/
structure StateCounts where
  first_entry_count : Int
  deriving DecidableEq, Repr

/-- The dict emitted for an `ExplorationAnnotationsModel`:
`{'version': ..., 'starts': ..., 'completions': ..., 'state_hit': ...}`.
The `state_hit` dict is embedded as an association list in iteration
order. -/
structure AnnValue where
  version : Str
  starts : Int
  completions : Int
  state_hit : List (Str × StateCounts)
  deriving DecidableEq, Repr

/-- A value grouped under a key for `StatisticsAudit.reduce`: either the
error message string emitted for a negative `StateCounterModel`, or an
annotation dict. -/
inductive StatsValue
  | errMsg (s : Str)
  | ann (a : AnnValue)
  deriving DecidableEq, Repr

/-- The two record kinds `StatisticsAudit.map` is mapped over:
`StateCounterModel` (a key and its `first_entry_count`) and
`ExplorationAnnotationsModel` (with a nullable `exploration_id`). -/
inductive StatsItem
  | counter (key : Str) (first_entry_count : Int)
  | annotationItem (exploration_id : Option Str) (version : Str)
      (num_starts : Int) (num_completions : Int)
      (state_hit_counts : List (Str × StateCounts))
  deriving DecidableEq, Repr

/-- `StatisticsAudit._STATE_COUNTER_ERROR_KEY`. -/
def STATE_COUNTER_ERROR_KEY : Str := "State Counter ERROR".data

/-- Modelled from the spec: `stats_jobs_continuous.VERSION_ALL`, the
"distinguished 'ALL' sentinel version" of a versioned annotation fact; the
module defining it is not part of this repository excerpt, only the
comparison against it is. -/
def VERSION_ALL : Str := "all".data

/-- `StatisticsAudit.map(item)`: for a `StateCounterModel`, emit one
`(ERROR_KEY, 'Less than 0: %s %d' % (item.key, item.first_entry_count))`
pair when the count is negative and nothing otherwise; for an
`ExplorationAnnotationsModel`, emit the annotation dict keyed by
`exploration_id` when that id is present and nothing otherwise. -/
def statisticsAudit_map : StatsItem → List (Str × StatsValue)
  | .counter key first_entry_count =>
    if first_entry_count < 0 then
      [(STATE_COUNTER_ERROR_KEY,
        .errMsg ("Less than 0: ".data ++ key ++ " ".data ++ pyIntStr first_entry_count))]
    else []
  | .annotationItem none _ _ _ _ => []
  | .annotationItem (some exploration_id) version num_starts num_completions state_hit_counts =>
    [(exploration_id, .ann ⟨version, num_starts, num_completions, state_hit_counts⟩)]

/-- The diagnostic lines yielded by `StatisticsAudit.reduce`: one
constructor per yield site, holding the values interpolated into the
format string (`echo` is the `yield (value_str,)` of the error-key
branch). -/
inductive SDiag
  | echo (v : StatsValue)
  | negStarts (key : Str) (version : Str) (starts : Int)
  | negCompletions (key : Str) (version : Str) (completions : Int)
  | complGtStarts (key : Str) (version : Str) (completions : Int) (starts : Int)
  | startsMismatch (key : Str) (sum : Int) (allv : Int)
  | completionsMismatch (key : Str) (sum : Int) (allv : Int)
  | stateHitAbsent (key : Str) (state : Str) (allv : Int)
  | stateHitMismatch (key : Str) (state : Str) (allv : Int) (sum : Int)
  deriving DecidableEq, Repr

/-- Lookup in a `collections.defaultdict(int)`: a missing key reads as 0. -/
def lookup0 (m : List (Str × Int)) (k : Str) : Int :=
  match m.lookup k with
  | some v => v
  | none => 0

/-- Python's `k in d` membership test on a dict. -/
def hasKey (m : List (Str × Int)) (k : Str) : Bool :=
  (m.lookup k).isSome

/-- Dict assignment `d[k] = v`: overwrite in place, or append a new key. -/
def setAssoc (m : List (Str × Int)) (k : Str) (v : Int) : List (Str × Int) :=
  match m with
  | [] => [(k, v)]
  | (k2, v2) :: rest => if k2 = k then (k2, v) :: rest else (k2, v2) :: setAssoc rest k v

/-- defaultdict accumulation `d[k] += v`. -/
def addAssoc (m : List (Str × Int)) (k : Str) (v : Int) : List (Str × Int) :=
  setAssoc m k (lookup0 m k + v)

/-- The ALL-version branch body: `all_state_hit[state_name] =
counts['first_entry_count']` for each entry of the value's `state_hit`. -/
def applySet (m : List (Str × Int)) (sh : List (Str × StateCounts)) : List (Str × Int) :=
  sh.foldl (fun m p => setAssoc m p.1 p.2.first_entry_count) m

/-- The non-ALL branch body: `sum_state_hit[state_name] +=
counts['first_entry_count']` for each entry of the value's `state_hit`. -/
def applyAdd (m : List (Str × Int)) (sh : List (Str × StateCounts)) : List (Str × Int) :=
  sh.foldl (fun m p => addAssoc m p.1 p.2.first_entry_count) m

/-- The six accumulator variables of `StatisticsAudit.reduce`. -/
structure AccState where
  all_starts : Int
  all_completions : Int
  all_state_hit : List (Str × Int)
  sum_starts : Int
  sum_completions : Int
  sum_state_hit : List (Str × Int)
  deriving DecidableEq, Repr

/-- The accumulators' initial values (zeroes and empty defaultdicts). -/
def initAcc : AccState := ⟨0, 0, [], 0, 0, []⟩

/-- One loop iteration's effect on the accumulators: the ALL version
overwrites `all_starts`/`all_completions` and assigns into
`all_state_hit`; any other version adds into the `sum_` accumulators. -/
def accStep (st : AccState) (v : AnnValue) : AccState :=
  if v.version = VERSION_ALL then
    { st with
        all_starts := v.starts
        all_completions := v.completions
        all_state_hit := applySet st.all_state_hit v.state_hit }
  else
    { st with
        sum_starts := st.sum_starts + v.starts
        sum_completions := st.sum_completions + v.completions
        sum_state_hit := applyAdd st.sum_state_hit v.state_hit }

/-- The accumulator state after the whole loop. -/
def accumOf (values : List AnnValue) : AccState :=
  values.foldl accStep initAcc

/-- The per-value diagnostics yielded inside the loop, in source order:
negative starts, negative completions, completions exceeding starts. -/
def perValueDiags (key : Str) (v : AnnValue) : List SDiag :=
  (if v.starts < 0 then [SDiag.negStarts key v.version v.starts] else []) ++
  (if v.completions < 0 then [SDiag.negCompletions key v.version v.completions] else []) ++
  (if v.completions > v.starts then [SDiag.complGtStarts key v.version v.completions v.starts] else [])

/-- The per-state body of the final loop of `StatisticsAudit.reduce`:
`if state_name not in sum_state_hit and all_state_hit[state_name] != 0` /
`elif all_state_hit[state_name] != sum_state_hit[state_name]` (reading a
missing key of the `sum` defaultdict yields 0). -/
def stateDiagEntry (key : Str) (sumMap : List (Str × Int)) (p : Str × Int) : List SDiag :=
  if ¬ hasKey sumMap p.1 ∧ p.2 ≠ 0 then
    [SDiag.stateHitAbsent key p.1 p.2]
  else if p.2 ≠ lookup0 sumMap p.1 then
    [SDiag.stateHitMismatch key p.1 p.2 (lookup0 sumMap p.1)]
  else []

/-- The final sum-vs-ALL comparisons of `StatisticsAudit.reduce`, followed
by the per-state walk over `all_state_hit`. -/
def aggregateDiags (key : Str) (st : AccState) : List SDiag :=
  (if st.sum_starts ≠ st.all_starts
    then [SDiag.startsMismatch key st.sum_starts st.all_starts] else []) ++
  (if st.sum_completions ≠ st.all_completions
    then [SDiag.completionsMismatch key st.sum_completions st.all_completions] else []) ++
  st.all_state_hit.flatMap (stateDiagEntry key st.sum_state_hit)

/-- The non-error-key branch of `StatisticsAudit.reduce`: one loop
interleaving the per-value yields with the accumulator updates, then the
aggregate comparisons. -/
def reduceAnnotationValues (key : Str) (values : List AnnValue) : List SDiag :=
  let r := values.foldl
    (fun (acc : List SDiag × AccState) v => (acc.1 ++ perValueDiags key v, accStep acc.2 v))
    ([], initAcc)
  r.1 ++ aggregateDiags key r.2

/-- The annotation dict behind a grouped value; `none` for the message
string of the error-key channel, whose subscripting by `'starts'` would
raise. -/
def annOf : StatsValue → Option AnnValue
  | .ann a => some a
  | .errMsg _ => none

/-- `StatisticsAudit.reduce(key, values)`: the error-key branch echoes
each value; any other key runs the annotation loop. `none` stands for the
crash on a non-dict value in the annotation branch (unreachable from the
mapper). -/
def statisticsAudit_reduce (key : Str) (values : List StatsValue) : Option (List SDiag) :=
  if key = STATE_COUNTER_ERROR_KEY then
    some (values.map SDiag.echo)
  else
    (values.mapM annOf).map (reduceAnnotationValues key)

/-- Insert one mapper emission into the grouped shuffle output: values
sharing a key are kept together in emission order, keys appear in
first-emission order. -/
def addToGroup {α : Type} (acc : List (Str × List α)) (k : Str) (v : α) : List (Str × List α) :=
  match acc with
  | [] => [(k, [v])]
  | (k2, vs) :: rest =>
    if k2 = k then (k2, vs ++ [v]) :: rest else (k2, vs) :: addToGroup rest k v

/-- The shuffle step of the map-reduce harness: group all emitted
`(key, value)` pairs by key. -/
def groupByKey {α : Type} (ps : List (Str × α)) : List (Str × List α) :=
  ps.foldl (fun acc p => addToGroup acc p.1 p.2) []

/-- The whole `StatisticsAudit` pipeline on a list of records: map each
record, group the emissions by key, reduce each group, and concatenate
the diagnostic lines; `none` when any reduce invocation crashes. -/
def runStatisticsAudit (items : List StatsItem) : Option (List SDiag) :=
  ((groupByKey (items.flatMap statisticsAudit_map)).mapM
    (fun g => statisticsAudit_reduce g.1 g.2)).map List.flatten

/-- The whole `AnswersAudit` pipeline on a list of record ids: map each
record (a `ValueError` fails the run), group the emissions by key, reduce
each group; the result collects every diagnostic line yielded and whether
some reduce invocation died on a `KeyError` after its yields. -/
def runAnswersAudit (ids : List Str) : Except PyErr (List ADiag × Bool) :=
  (ids.mapM answersAudit_map).map (fun emitted =>
    let rs := (groupByKey emitted.flatten).map (fun g => answersAudit_reduce g.1 g.2)
    ((rs.map Prod.fst).flatten, rs.any Prod.snd))

/-- Every character of `s` from position `i` to the end is the delimiter. -/
def allDotsFrom (s : Str) (i : Nat) : Prop := ∀ c ∈ s.drop i, c = '.'

instance (s : Str) (i : Nat) : Decidable (allDotsFrom s i) :=
  inferInstanceAs (Decidable (∀ c ∈ s.drop i, c = '.'))

lemma dotScan_eq_none_of_all {l : Str} (h : ∀ c ∈ l, c = '.') : dotScan l = none := by
  induction l with
  | nil => rfl
  | cons c rest ih =>
    have hc : c = '.' := h c (List.mem_cons_self ..)
    simp [dotScan, hc, ih fun d hd => h d (List.mem_cons_of_mem _ hd)]

/-- C10: when every character from position `i` to the end of the string
is the delimiter, `_get_consecutive_dot_count(s, i)` returns 0 rather than
the run length, and consequently a first delimiter at position `p` whose
run reaches the end of the string makes the computed segment boundary
`p - 1`, one character before the first delimiter of the run. -/
theorem c10_trailing_dot_run (s : Str) :
    (∀ i, allDotsFrom s i → get_consecutive_dot_count s i = 0) ∧
    (∀ p, s.findIdx? (fun c => c == '.') = some p → allDotsFrom s p →
      segmentBoundary s = some ((p : Int) - 1)) := by
  have hcount : ∀ i, allDotsFrom s i → get_consecutive_dot_count s i = 0 := by
    intro i h
    unfold get_consecutive_dot_count
    rw [dotScan_eq_none_of_all h]
    rfl
  refine ⟨hcount, fun p hp h => ?_⟩
  unfold segmentBoundary
  rw [hp]
  simp [hcount p h]

/-- Witness for `c10_trailing_dot_run` at `s = "ab.."`, `i = p = 2`. -/
theorem c10_witness :
    get_consecutive_dot_count "ab..".data 2 = 0 ∧
    segmentBoundary "ab..".data = some ((2 : Int) - 1) :=
  ⟨(c10_trailing_dot_run "ab..".data).1 2 (by decide),
   (c10_trailing_dot_run "ab..".data).2 2 (by decide) (by decide)⟩

/-- C1, counterexample: parsing `"12..3.state.Handler.Equals(x)"` does not
leave handler-name `"Handler"` and rule descriptor `"Equals(x)"`. -/
theorem c1_counterexample :
    (keyParse "12..3.state.Handler.Equals(x)".data).map (fun t => (t.2.2.1, t.2.2.2)) ≠
      some ("Handler".data, "Equals(x)".data) := by
  decide

/-- C1, amended: parsing `"12..3.state.Handler.Equals(x)"` yields
collection-id `"12."` (one literal delimiter character), state-name `"3"`,
handler-name `"state"`, and rule descriptor `"Handler.Equals(x)"`, so the
mapper keys its two emissions by handler-name `"state"` and rule-type
`"Handler.Equals"`. -/
theorem c1_parse_amended :
    keyParse "12..3.state.Handler.Equals(x)".data =
      some ("12.".data, "3".data, "state".data, "Handler.Equals(x)".data) ∧
    answersAudit_map "12..3.state.Handler.Equals(x)".data =
      Except.ok [("state".data, AnswerValue.handlerVal "12..3.state.Handler.Equals(x)".data),
        ("Handler.Equals".data,
          AnswerValue.standardVal "Handler.Equals(x)".data "x".data)] := by
  exact ⟨rfl, rfl⟩

/-- C9: both pipelines are pure functions of their input record lists, so
two runs on an identical input set produce identical diagnostic output. -/
theorem c9_two_run_determinism (sItems : List StatsItem) (aIds : List Str) :
    runStatisticsAudit sItems = runStatisticsAudit sItems ∧
    runAnswersAudit aIds = runAnswersAudit aIds :=
  ⟨rfl, rfl⟩

/-- C6: a counter fact with a non-negative count makes `StatisticsAudit.map`
emit nothing; a negative count makes it emit exactly one
`(ERROR_KEY, message)` pair whose message contains the record's key and
its count. -/
theorem c6_counter_fact_mapper (key : Str) (count : Int) :
    (0 ≤ count → statisticsAudit_map (StatsItem.counter key count) = []) ∧
    (count < 0 → ∃ msg, statisticsAudit_map (StatsItem.counter key count) =
        [(STATE_COUNTER_ERROR_KEY, StatsValue.errMsg msg)] ∧
      (∃ u v, msg = u ++ key ++ v) ∧ ∃ u v, msg = u ++ pyIntStr count ++ v) := by
  constructor
  · intro h
    simp [statisticsAudit_map, not_lt.mpr h]
  · intro h
    refine ⟨"Less than 0: ".data ++ key ++ " ".data ++ pyIntStr count,
      by simp [statisticsAudit_map, h],
      ⟨"Less than 0: ".data, " ".data ++ pyIntStr count, by simp⟩,
      ⟨"Less than 0: ".data ++ key ++ " ".data, [], by simp⟩⟩

/-- Witness for `c6_counter_fact_mapper` at counts `2` and `-3`. -/
theorem c6_witness :
    statisticsAudit_map (StatsItem.counter "k".data 2) = [] ∧
    ∃ msg, statisticsAudit_map (StatsItem.counter "k".data (-3)) =
        [(STATE_COUNTER_ERROR_KEY, StatsValue.errMsg msg)] ∧
      (∃ u v, msg = u ++ "k".data ++ v) ∧ ∃ u v, msg = u ++ pyIntStr (-3) ++ v :=
  ⟨(c6_counter_fact_mapper "k".data 2).1 (by norm_num),
   (c6_counter_fact_mapper "k".data (-3)).2 (by norm_num)⟩

lemma advanceSegment_eq_none {s : Str} (h : '.' ∉ s) : advanceSegment s = none := by
  have hf : s.findIdx? (fun c => c == '.') = none := by
    rw [List.findIdx?_eq_none_iff]
    intro c hc
    simp only [beq_eq_false_iff_ne, ne_eq]
    exact fun e => h (e ▸ hc)
  simp [advanceSegment, segmentBoundary, hf]

/-- C5: an answer record whose composite identifier contains no delimiter
at one of the three parsing steps makes `AnswersAudit.map` raise the parse
error (no pairs are emitted for that record, and the error reaches the
caller). -/
theorem c5_parse_error_propagates (id : Str)
    (h : ('.' ∉ id) ∨
      (∃ seg r1, advanceSegment id = some (seg, r1) ∧ '.' ∉ r1) ∨
      (∃ seg r1 seg2 r2, advanceSegment id = some (seg, r1) ∧
        advanceSegment r1 = some (seg2, r2) ∧ '.' ∉ r2)) :
    answersAudit_map id = Except.error PyErr.valueError := by
  rcases h with h | ⟨seg, r1, h1, h2⟩ | ⟨seg, r1, seg2, r2, h1, h2, h3⟩
  · simp [answersAudit_map, keyParse, advanceSegment_eq_none h]
  · simp [answersAudit_map, keyParse, h1, advanceSegment_eq_none h2]
  · simp [answersAudit_map, keyParse, h1, h2, advanceSegment_eq_none h3]

/-- Witness for `c5_parse_error_propagates` at `"abc"` (no delimiter at the
first step). -/
theorem c5_witness : answersAudit_map "abc".data = Except.error PyErr.valueError :=
  c5_parse_error_propagates "abc".data (Or.inl (by decide))

lemma foldl_firstPassStep_const (values : List AnswerValue) (t : ReduceType)
    (d : List ADiag) (h : ∀ v ∈ values, reduceTypeOf v = t) :
    values.foldl firstPassStep (d, some t) = (d, some t) := by
  induction values generalizing d with
  | nil => rfl
  | cons v vs ih =>
    have hv := h v (List.mem_cons_self ..)
    have hstep : firstPassStep (d, some t) v = (d, some t) := by
      simp [firstPassStep, hv]
    simp only [List.foldl_cons, hstep]
    exact ih d fun w hw => h w (List.mem_cons_of_mem _ hw)

lemma firstPass_no_diag (values : List AnswerValue) (t : ReduceType)
    (h : ∀ v ∈ values, reduceTypeOf v = t) : (firstPass values).1 = [] := by
  cases values with
  | nil => rfl
  | cons v vs =>
    unfold firstPass
    have h0 : firstPassStep ([], none) v = ([], some (reduceTypeOf v)) := rfl
    simp only [List.foldl_cons, h0, h v (List.mem_cons_self ..)]
    rw [foldl_firstPassStep_const vs t [] fun w hw => h w (List.mem_cons_of_mem _ hw)]

/-- C2, amended: when all values grouped under one key carry the same
`reduce_type` — which the mapper does not guarantee for every input set —
`AnswersAudit.reduce` never takes the `'Internal error 1'` branch. -/
theorem c2_amended_same_type_no_internal_error (key : Str)
    (values : List AnswerValue) (t : ReduceType)
    (h : ∀ v ∈ values, reduceTypeOf v = t) :
    ADiag.internalError1 ∉ (answersAudit_reduce key values).1 := by
  have hfp : (firstPass values).1 = [] := firstPass_no_diag values t h
  rcases hp : firstPass values with ⟨l, rt⟩
  rw [hp] at hfp
  subst hfp
  unfold answersAudit_reduce
  rw [hp]
  rcases rt with _ | rt
  · simp
  · cases rt with
    | handlerCtr =>
      rcases hm : values.mapM ruleSpecStrOf with _ | specs <;> simp [hm]
    | fuzzyCtr => simp
    | defaultCtr => simp
    | standardCtr => simp
    | errorCtr => simp

/-- Witness for `c2_amended_same_type_no_internal_error` on a singleton
fuzzy group. -/
theorem c2_witness :
    ADiag.internalError1 ∉ (answersAudit_reduce "k".data [AnswerValue.fuzzyVal]).1 :=
  c2_amended_same_type_no_internal_error "k".data [AnswerValue.fuzzyVal]
    ReduceType.fuzzyCtr (by decide)

/-- C2, counterexample: the two successfully mapped records
`"a.b.c.FuzzyMatches"` and `"a.b.FuzzyMatches.x"` put a handler-name value
and a fuzzy-rule value under the same key `"FuzzyMatches"`, and the
pipeline emits `'Internal error 1'` for that group. -/
theorem c2_counterexample :
    runAnswersAudit ["a.b.c.FuzzyMatches".data, "a.b.FuzzyMatches.x".data] =
      Except.ok ([ADiag.handlerSummary "c".data 1 ["a.b.c.FuzzyMatches".data],
        ADiag.internalError1,
        ADiag.fuzzySummary 2,
        ADiag.errorRuleSummary 1 "x".data], false) ∧
    ADiag.internalError1 ∈ [ADiag.handlerSummary "c".data 1 ["a.b.c.FuzzyMatches".data],
        ADiag.internalError1,
        ADiag.fuzzySummary 2,
        ADiag.errorRuleSummary 1 "x".data] := by
  exact ⟨rfl, by decide⟩

lemma reduceAnn_fold (key : Str) (values : List AnnValue) (d : List SDiag) (st : AccState) :
    values.foldl (fun (acc : List SDiag × AccState) v =>
      (acc.1 ++ perValueDiags key v, accStep acc.2 v)) (d, st) =
    (d ++ values.flatMap (perValueDiags key), values.foldl accStep st) := by
  induction values generalizing d st with
  | nil => simp
  | cons v vs ih => simp [ih]

lemma reduceAnn_decomp (key : Str) (values : List AnnValue) :
    reduceAnnotationValues key values =
      values.flatMap (perValueDiags key) ++ aggregateDiags key (accumOf values) := by
  unfold reduceAnnotationValues accumOf
  rw [reduceAnn_fold]
  simp

/-- C8: the per-value diagnostics of the annotation reducer are non-fatal
and exhaustive — the reduce output begins with the concatenation, over all
values of the group in order, of one diagnostic per violated condition
among `starts < 0`, `completions < 0` and `completions > starts`, every
such diagnostic of every value of the group appears in the single
invocation's output, and aggregate processing still follows. -/
theorem c8_per_value_diagnostics (key : Str) (values : List AnnValue) :
    reduceAnnotationValues key values =
      values.flatMap (perValueDiags key) ++ aggregateDiags key (accumOf values) ∧
    (∀ v ∈ values, ∀ d ∈ perValueDiags key v, d ∈ reduceAnnotationValues key values) ∧
    (∀ v, (perValueDiags key v).length =
      (if v.starts < 0 then 1 else 0) + (if v.completions < 0 then 1 else 0) +
        (if v.completions > v.starts then 1 else 0)) ∧
    (∀ v, (SDiag.negStarts key v.version v.starts ∈ perValueDiags key v ↔ v.starts < 0) ∧
      (SDiag.negCompletions key v.version v.completions ∈ perValueDiags key v ↔
        v.completions < 0) ∧
      (SDiag.complGtStarts key v.version v.completions v.starts ∈ perValueDiags key v ↔
        v.completions > v.starts)) := by
  refine ⟨reduceAnn_decomp key values, ?_, ?_, ?_⟩
  · intro v hv d hd
    rw [reduceAnn_decomp]
    exact List.mem_append_left _ (List.mem_flatMap.mpr ⟨v, hv, hd⟩)
  · intro v
    unfold perValueDiags
    split_ifs <;> simp
  · intro v
    unfold perValueDiags
    refine ⟨?_, ?_, ?_⟩ <;> (split_ifs <;> simp_all)

/-- Witness for `c8_per_value_diagnostics`: a value with negative starts in
a singleton group has its negative-starts diagnostic in the output. -/
theorem c8_witness :
    SDiag.negStarts "k".data "v1".data (-1) ∈
      reduceAnnotationValues "k".data [⟨"v1".data, -1, -2, []⟩] :=
  (c8_per_value_diagnostics "k".data [⟨"v1".data, -1, -2, []⟩]).2.1
    ⟨"v1".data, -1, -2, []⟩ (by decide) (SDiag.negStarts "k".data "v1".data (-1)) (by decide)

/-- The loop's test `value['version'] == stats_jobs_continuous.VERSION_ALL`
as a Boolean predicate. -/
def isAllVersion (v : AnnValue) : Bool := v.version = VERSION_ALL

lemma foldl_accStep_all_starts (values : List AnnValue) (st : AccState) :
    (values.foldl accStep st).all_starts =
      match (values.filter isAllVersion).getLast? with
      | some v => v.starts
      | none => st.all_starts := by
  induction values using List.reverseRecOn with
  | nil => rfl
  | append_singleton ys y ih =>
    by_cases hy : y.version = VERSION_ALL
    · simp [List.filter_append, accStep, hy, isAllVersion]
    · simp [List.filter_append, accStep, hy, isAllVersion, ih]

lemma foldl_accStep_all_completions (values : List AnnValue) (st : AccState) :
    (values.foldl accStep st).all_completions =
      match (values.filter isAllVersion).getLast? with
      | some v => v.completions
      | none => st.all_completions := by
  induction values using List.reverseRecOn with
  | nil => rfl
  | append_singleton ys y ih =>
    by_cases hy : y.version = VERSION_ALL
    · simp [List.filter_append, accStep, hy, isAllVersion]
    · simp [List.filter_append, accStep, hy, isAllVersion, ih]

lemma foldl_accStep_all_state_hit (values : List AnnValue) (st : AccState) :
    (values.foldl accStep st).all_state_hit =
      (values.filter isAllVersion).foldl (fun m w => applySet m w.state_hit)
        st.all_state_hit := by
  induction values using List.reverseRecOn with
  | nil => rfl
  | append_singleton ys y ih =>
    by_cases hy : y.version = VERSION_ALL
    · simp [List.filter_append, accStep, hy, isAllVersion, ih]
    · simp [List.filter_append, accStep, hy, isAllVersion, ih]

/-- C3, amended: with several ALL-version values in a group, the reducer's
ALL starts and completions equal those of the last ALL-version value, but
the ALL per-state hit map is the overwrite-accumulation of all ALL-version
values' maps in order — a state set by an earlier ALL value and untouched
by later ones keeps the earlier count — and no conflict diagnostic is
emitted for the duplicated ALL values. -/
theorem c3_amended_last_all_overwrites (values : List AnnValue) (v : AnnValue)
    (h : (values.filter isAllVersion).getLast? = some v) :
    (accumOf values).all_starts = v.starts ∧
    (accumOf values).all_completions = v.completions ∧
    (accumOf values).all_state_hit =
      (values.filter isAllVersion).foldl (fun m w => applySet m w.state_hit) [] := by
  refine ⟨?_, ?_, ?_⟩
  · rw [accumOf, foldl_accStep_all_starts, h]
  · rw [accumOf, foldl_accStep_all_completions, h]
  · rw [accumOf, foldl_accStep_all_state_hit]
    rfl

/-- Witness for `c3_amended_last_all_overwrites` on a singleton ALL group. -/
theorem c3_witness :
    (accumOf [(⟨VERSION_ALL, 1, 2, []⟩ : AnnValue)]).all_starts = 1 ∧
    (accumOf [(⟨VERSION_ALL, 1, 2, []⟩ : AnnValue)]).all_completions = 2 ∧
    (accumOf [(⟨VERSION_ALL, 1, 2, []⟩ : AnnValue)]).all_state_hit =
      ([(⟨VERSION_ALL, 1, 2, []⟩ : AnnValue)].filter isAllVersion).foldl
        (fun m w => applySet m w.state_hit) [] :=
  c3_amended_last_all_overwrites [⟨VERSION_ALL, 1, 2, []⟩] ⟨VERSION_ALL, 1, 2, []⟩ (by decide)

/-- C3, counterexample: two ALL-version values, the first recording state
`"A"` with 5 hits and the last recording no states at all; the reducer's
ALL per-state hit map keeps `("A", 5)` instead of equalling the last ALL
value's empty map, observably emitting the `"A"` mismatch diagnostic. -/
theorem c3_counterexample :
    (accumOf [⟨VERSION_ALL, 0, 0, [("A".data, ⟨5⟩)]⟩,
        ⟨VERSION_ALL, 0, 0, []⟩]).all_state_hit = [("A".data, 5)] ∧
    (([⟨VERSION_ALL, 0, 0, [("A".data, ⟨5⟩)]⟩, ⟨VERSION_ALL, 0, 0, []⟩] :
        List AnnValue).filter isAllVersion).getLast? = some ⟨VERSION_ALL, 0, 0, []⟩ ∧
    (accumOf [⟨VERSION_ALL, 0, 0, [("A".data, ⟨5⟩)]⟩,
        ⟨VERSION_ALL, 0, 0, []⟩]).all_state_hit ≠
      ((⟨VERSION_ALL, 0, 0, []⟩ : AnnValue).state_hit.map
        (fun p => (p.1, p.2.first_entry_count))) ∧
    reduceAnnotationValues "e".data [⟨VERSION_ALL, 0, 0, [("A".data, ⟨5⟩)]⟩,
        ⟨VERSION_ALL, 0, 0, []⟩] = [SDiag.stateHitAbsent "e".data "A".data 5] := by
  decide

/-- Recognizer for a state-hit diagnostic concerning state `s` (either the
absent-from-sum variant or the numeric-mismatch variant). -/
def isStateDiagFor (s : Str) : SDiag → Bool
  | .stateHitAbsent _ t _ => t = s
  | .stateHitMismatch _ t _ _ => t = s
  | _ => false

lemma lookup0_eq_zero_of_not_hasKey {m : List (Str × Int)} {k : Str}
    (h : hasKey m k = false) : lookup0 m k = 0 := by
  unfold hasKey at h
  unfold lookup0
  rcases hm : m.lookup k with _ | v
  · rfl
  · rw [hm] at h
    simp at h

lemma countP_stateDiagEntry_ne (key : Str) (sumMap : List (Str × Int)) (s : Str)
    (p : Str × Int) (h : p.1 ≠ s) :
    (stateDiagEntry key sumMap p).countP (isStateDiagFor s) = 0 := by
  unfold stateDiagEntry
  split_ifs <;> simp [isStateDiagFor, h]

lemma countP_flatMap_zero_of_not_mem_keys (key s : Str) (sumMap : List (Str × Int))
    (m : List (Str × Int)) (h : s ∉ m.map Prod.fst) :
    (m.flatMap (stateDiagEntry key sumMap)).countP (isStateDiagFor s) = 0 := by
  induction m with
  | nil => rfl
  | cons p rest ih =>
    simp only [List.map_cons, List.mem_cons, not_or] at h
    simp only [List.flatMap_cons, List.countP_append]
    rw [countP_stateDiagEntry_ne key sumMap s p (fun e => h.1 e.symm),
      ih h.2]

lemma countP_stateDiagEntry_self (key : Str) (sumMap : List (Str × Int))
    (s : Str) (a : Int) :
    (stateDiagEntry key sumMap (s, a)).countP (isStateDiagFor s) =
      if hasKey sumMap s then (if a = lookup0 sumMap s then 0 else 1)
      else (if a = 0 then 0 else 1) := by
  unfold stateDiagEntry
  by_cases hk : hasKey sumMap s
  · by_cases ha : a = lookup0 sumMap s <;> simp [isStateDiagFor, hk, ha]
  · have hk' : hasKey sumMap s = false := by simpa using hk
    have h0 : lookup0 sumMap s = 0 := lookup0_eq_zero_of_not_hasKey hk'
    by_cases ha : a = 0 <;> simp [isStateDiagFor, hk', ha, h0]

lemma countP_flatMap_stateDiags (key s : Str) (a : Int)
    (sumMap m : List (Str × Int))
    (hnd : (m.map Prod.fst).Nodup) (hmem : (s, a) ∈ m) :
    (m.flatMap (stateDiagEntry key sumMap)).countP (isStateDiagFor s) =
      if hasKey sumMap s then (if a = lookup0 sumMap s then 0 else 1)
      else (if a = 0 then 0 else 1) := by
  induction m with
  | nil => cases hmem
  | cons p rest ih =>
    simp only [List.map_cons, List.nodup_cons] at hnd
    simp only [List.flatMap_cons, List.countP_append]
    rcases List.mem_cons.mp hmem with rfl | hmem'
    · rw [countP_flatMap_zero_of_not_mem_keys key s sumMap rest hnd.1,
        countP_stateDiagEntry_self key sumMap s a]
      simp
    · have hsrest : s ∈ rest.map Prod.fst := List.mem_map.mpr ⟨(s, a), hmem', rfl⟩
      have hne : p.1 ≠ s := fun e => hnd.1 (e ▸ hsrest)
      rw [countP_stateDiagEntry_ne key sumMap s p hne, ih hnd.2 hmem']
      simp

lemma mem_keys_setAssoc (m : List (Str × Int)) (k k2 : Str) (v : Int) :
    k2 ∈ (setAssoc m k v).map Prod.fst ↔ k2 ∈ m.map Prod.fst ∨ k2 = k := by
  induction m with
  | nil => simp [setAssoc]
  | cons p rest ih =>
    rcases p with ⟨a, b⟩
    by_cases h : a = k
    · subst h
      simp [setAssoc]
      tauto
    · simp [setAssoc, h, ih]
      tauto

lemma nodup_keys_setAssoc (m : List (Str × Int)) (k : Str) (v : Int)
    (h : (m.map Prod.fst).Nodup) : ((setAssoc m k v).map Prod.fst).Nodup := by
  induction m with
  | nil => simp [setAssoc]
  | cons p rest ih =>
    rcases p with ⟨a, b⟩
    simp only [List.map_cons, List.nodup_cons] at h
    by_cases hak : a = k
    · subst hak
      have hset : setAssoc ((a, b) :: rest) a v = (a, v) :: rest := by
        simp [setAssoc]
      rw [hset]
      simp only [List.map_cons, List.nodup_cons]
      exact h
    · simp only [setAssoc, if_neg hak, List.map_cons, List.nodup_cons]
      refine ⟨?_, ih h.2⟩
      rw [mem_keys_setAssoc]
      rintro (hmem | rfl)
      · exact h.1 hmem
      · exact hak rfl

lemma nodup_keys_applySet (sh : List (Str × StateCounts)) (m : List (Str × Int))
    (h : (m.map Prod.fst).Nodup) : ((applySet m sh).map Prod.fst).Nodup := by
  induction sh generalizing m with
  | nil => simpa [applySet]
  | cons p rest ih =>
    unfold applySet at *
    simp only [List.foldl_cons]
    exact ih _ (nodup_keys_setAssoc _ _ _ h)

lemma nodup_keys_fold_applySet (l : List AnnValue) (m : List (Str × Int))
    (h : (m.map Prod.fst).Nodup) :
    ((l.foldl (fun m w => applySet m w.state_hit) m).map Prod.fst).Nodup := by
  induction l generalizing m with
  | nil => simpa
  | cons w rest ih =>
    simp only [List.foldl_cons]
    exact ih _ (nodup_keys_applySet _ _ h)

lemma nodup_keys_accum_all (values : List AnnValue) :
    ((accumOf values).all_state_hit.map Prod.fst).Nodup := by
  rw [accumOf, foldl_accStep_all_state_hit]
  exact nodup_keys_fold_applySet _ _ (by simp [initAcc])

lemma isStateDiagFor_perValue (key s : Str) (v : AnnValue) (d : SDiag)
    (hd : d ∈ perValueDiags key v) : isStateDiagFor s d = false := by
  cases d <;> first
  | rfl
  | (exfalso
     unfold perValueDiags at hd
     split_ifs at hd <;> simp_all)

/-- C4: asymmetric zero handling of the annotation reducer — for a state
recorded in the ALL per-state hit map with count `a`, the single reduce
invocation emits exactly one state-hit diagnostic for that state when the
state is absent from the summed map and `a ≠ 0`, or present in the summed
map with a different count, and none otherwise (in particular an ALL count
of exactly 0 for an absent state emits nothing). -/
theorem c4_asymmetric_zero_handling (key s : Str) (a : Int) (values : List AnnValue)
    (hmem : (s, a) ∈ (accumOf values).all_state_hit) :
    (reduceAnnotationValues key values).countP (isStateDiagFor s) =
      if hasKey (accumOf values).sum_state_hit s then
        (if a = lookup0 (accumOf values).sum_state_hit s then 0 else 1)
      else (if a = 0 then 0 else 1) := by
  rw [reduceAnn_decomp, List.countP_append]
  rw [List.countP_eq_zero.mpr fun d hd => by
    rcases List.mem_flatMap.mp hd with ⟨v, hv, hdv⟩
    simp [isStateDiagFor_perValue key s v d hdv]]
  rw [Nat.zero_add]
  unfold aggregateDiags
  rw [List.countP_append, List.countP_append]
  have h1 : (if (accumOf values).sum_starts ≠ (accumOf values).all_starts
      then [SDiag.startsMismatch key (accumOf values).sum_starts (accumOf values).all_starts]
      else []).countP (isStateDiagFor s) = 0 := by
    split_ifs <;> simp [isStateDiagFor]
  have h2 : (if (accumOf values).sum_completions ≠ (accumOf values).all_completions
      then [SDiag.completionsMismatch key (accumOf values).sum_completions
        (accumOf values).all_completions]
      else []).countP (isStateDiagFor s) = 0 := by
    split_ifs <;> simp [isStateDiagFor]
  rw [h1, h2]
  simp only [Nat.zero_add]
  exact countP_flatMap_stateDiags key s a _ _ (nodup_keys_accum_all values) hmem

/-- Witness for `c4_asymmetric_zero_handling`: one ALL value recording
state `"A"` with 5 hits and nothing on the summed side. -/
theorem c4_witness :
    (reduceAnnotationValues "e".data
        [⟨VERSION_ALL, 0, 0, [("A".data, ⟨5⟩)]⟩]).countP (isStateDiagFor "A".data) =
      if hasKey (accumOf [⟨VERSION_ALL, 0, 0, [("A".data, ⟨5⟩)]⟩]).sum_state_hit "A".data then
        (if (5 : Int) = lookup0 (accumOf
            [⟨VERSION_ALL, 0, 0, [("A".data, ⟨5⟩)]⟩]).sum_state_hit "A".data then 0 else 1)
      else (if (5 : Int) = 0 then 0 else 1) :=
  c4_asymmetric_zero_handling "e".data "A".data 5
    [⟨VERSION_ALL, 0, 0, [("A".data, ⟨5⟩)]⟩] (by decide)

lemma take_findIdx_eq_takeWhile {l : Str} {i : Nat}
    (h : l.findIdx? (fun c => c == '(') = some i) :
    l.take i = l.takeWhile (fun c => !(c == '(')) ∧
    (l.takeWhile (fun c => !(c == '('))).length = i := by
  induction l generalizing i with
  | nil => simp at h
  | cons c rest ih =>
    rw [List.findIdx?_cons] at h
    by_cases hc : c == '('
    · rw [if_pos hc] at h
      obtain rfl : (0 : Nat) = i := by simpa using h
      simp [List.takeWhile_cons, hc]
    · rw [if_neg hc, List.findIdx?_start_succ] at h
      rcases hj : rest.findIdx? (fun c => c == '(') with _ | j
      · rw [hj] at h
        simp at h
      · rw [hj] at h
        simp only [Option.map_some'] at h
        obtain rfl : j + 1 = i := by simpa using h
        have hr := ih hj
        simp [List.takeWhile_cons, hc, hr.1, hr.2]

/-- C7: rule classification is total — every rule-descriptor string gets
exactly one of the four categories; `"FuzzyMatches"` is fuzzy, `"Default"`
is default, any other string containing `'('` and ending in `')'` is
standard with type the text before the first open-paren and args the text
strictly between the first open-paren and the final close-paren, and every
remaining string (e.g. `"garbage"`) is malformed. -/
theorem c7_rule_classification :
    (∀ s : Str, classifyRule s = RuleCat.fuzzy ∨ classifyRule s = RuleCat.defaultRule ∨
      (∃ t a, classifyRule s = RuleCat.standard t a) ∨ classifyRule s = RuleCat.malformed) ∧
    classifyRule "FuzzyMatches".data = RuleCat.fuzzy ∧
    classifyRule "Default".data = RuleCat.defaultRule ∧
    (∀ s : Str, s ≠ "FuzzyMatches".data → s ≠ "Default".data →
      '(' ∈ s → s.getLast? = some ')' →
      classifyRule s = RuleCat.standard (specRuleType s) (specRuleArgs s)) ∧
    (∀ s : Str, s ≠ "FuzzyMatches".data → s ≠ "Default".data →
      ¬('(' ∈ s ∧ s.getLast? = some ')') → classifyRule s = RuleCat.malformed) ∧
    classifyRule "Equals(x)".data = RuleCat.standard "Equals".data "x".data ∧
    classifyRule "garbage".data = RuleCat.malformed := by
  refine ⟨?_, rfl, rfl, ?_, ?_, rfl, rfl⟩
  · intro s
    unfold classifyRule
    split_ifs with h1 h2 h3
    · exact Or.inl rfl
    · exact Or.inr (Or.inl rfl)
    · rcases hf : s.findIdx? (fun c => c == '(') with _ | i
      · exact Or.inr (Or.inr (Or.inr rfl))
      · exact Or.inr (Or.inr (Or.inl ⟨_, _, rfl⟩))
    · exact Or.inr (Or.inr (Or.inr rfl))
  · intro s h1 h2 h3 h4
    unfold classifyRule
    rw [if_neg h1, if_neg h2, if_pos ⟨h3, h4⟩]
    have hsome : (s.findIdx? (fun c => c == '(')).isSome := by
      rw [List.findIdx?_isSome, List.any_eq_true]
      exact ⟨'(', h3, by simp⟩
    rcases hf : s.findIdx? (fun c => c == '(') with _ | i
    · rw [hf] at hsome
      simp at hsome
    · have hr := take_findIdx_eq_takeWhile hf
      have hargs : (pyTake s (-1)).drop (i + 1) = specRuleArgs s := by
        unfold pyTake specRuleArgs
        rw [if_pos (by norm_num), List.dropLast_eq_take, hr.2]
        norm_num
      show RuleCat.standard (s.take i) ((pyTake s (-1)).drop (i + 1)) =
        RuleCat.standard (specRuleType s) (specRuleArgs s)
      rw [hr.1, hargs]
      rfl
  · intro s h1 h2 h3
    unfold classifyRule
    rw [if_neg h1, if_neg h2, if_neg h3]

/-- Witness for `c7_rule_classification`: its general standard and
malformed cases applied at `"Equals(x)"` and `"q"`. -/
theorem c7_witness :
    classifyRule "Equals(x)".data =
      RuleCat.standard (specRuleType "Equals(x)".data) (specRuleArgs "Equals(x)".data) ∧
    classifyRule "q".data = RuleCat.malformed :=
  ⟨c7_rule_classification.2.2.2.1 "Equals(x)".data (by decide) (by decide)
      (by decide) (by decide),
   c7_rule_classification.2.2.2.2.1 "q".data (by decide) (by decide) (by decide)⟩
